import Mathlib

/-!
Verification of the decode/playback engine of `bevy_gst_video`.

The definitions below are a shallow embedding of the Rust sources
`src/video.rs` (the ffmpeg decode loop, the shared player flags, the bounded
video queue and the audio ring buffer) and `src/plugin.rs` (the render-side
state machine, the playback clock and the position/duration/progress queries).
Machine floats (`f64` positions and durations) are modelled as rationals,
`u64` timestamps as `Nat`; mutexed scalars become plain fields of explicit
state records, and the decode thread's per-packet iteration becomes a step
function folded over a list of inputs.
-/

namespace VideoModel

/-- Decoded video frame, from `VideoInfo` in `src/video.rs`: width/height in
pixels, tightly packed RGBA byte data, PTS in nanoseconds, position in
seconds. -/
structure VideoInfo where
  width : Nat
  height : Nat
  data : List Nat
  pts : Nat
  position_secs : ℚ
deriving DecidableEq, Repr

/-! ## Playback clock (src/plugin.rs, handle_playing_state lines 99-113) -/

/-- State of the consumer-side playback clock: the shared `previous_pts`
scalar (nanoseconds) and the repeating timer's current duration in whole
milliseconds. -/
structure ClockState where
  previous_pts : Nat
  timer_ms : Nat
deriving DecidableEq, Repr

/-- The clamp applied in `handle_playing_state`: `dt.max(1).min(100)`. -/
def clamp_dt (dt : Nat) : Nat := min (max dt 1) 100

/-- The `previous_pts` / timer update performed when a frame is popped and
rendered, from `src/plugin.rs` lines 99-113: if `previous_pts == 0` this is
treated as the first frame (seed the PTS, set a ~30fps default of 33 ms);
if the new PTS is strictly greater, set the timer to the delta in whole
milliseconds clamped to [1,100] and update the PTS; otherwise only update
the PTS, leaving the timer duration untouched. -/
def pts_timer_update (s : ClockState) (framePts : Nat) : ClockState :=
  if s.previous_pts = 0 then
    { previous_pts := framePts, timer_ms := 33 }
  else if framePts > s.previous_pts then
    { previous_pts := framePts
      timer_ms := clamp_dt ((framePts - s.previous_pts) / 1000000) }
  else
    { previous_pts := framePts, timer_ms := s.timer_ms }

/-! ## Position / duration / progress queries (src/plugin.rs lines 38-66) -/

/-- The state visible to the `VideoPlayer` query methods: whether the
ffmpeg pipeline has been created, and the shared `current_position` and
`duration` scalars (seconds, modelled as rationals). -/
structure QueryState where
  pipelineExists : Bool
  current_position : ℚ
  duration : ℚ
deriving DecidableEq, Repr

/-- `VideoPlayer::position`: the shared current position, or 0.0 when the
pipeline does not exist yet. -/
def positionQ (s : QueryState) : ℚ :=
  if s.pipelineExists then s.current_position else 0

/-- `VideoPlayer::duration`: the shared duration, or 0.0 when the pipeline
does not exist yet. -/
def durationQ (s : QueryState) : ℚ :=
  if s.pipelineExists then s.duration else 0

/-- `VideoPlayer::progress`: `position / duration` when `duration > 0`,
else 0. -/
def progressQ (s : QueryState) : ℚ :=
  if durationQ s > 0 then positionQ s / durationQ s else 0

/-! ## Stride-stripping pixel copy (src/video.rs, decode_loop lines 411-430) -/

/-- The pixel copy loop of `decode_loop`: for each row `y` below `height`,
append the `width*4` bytes starting at offset `y*stride` of the scaled
frame's plane to the output buffer (`for y in 0..height { pixel_data.extend
(src[y*stride .. y*stride + width*4]) }`). Recursion is on `height`, the
last argument. -/
def pixel_data (src : List Nat) (width stride : Nat) : Nat → List Nat
  | 0 => []
  | h + 1 => pixel_data src width stride h ++ (src.drop (h * stride)).take (width * 4)

/-! ## Player command flags (src/video.rs, FfmpegPlayer lines 75-107) -/

/-- The atomic booleans shared between the `FfmpegPlayer` handle and the
decode thread. -/
structure Flags where
  is_playing : Bool
  should_stop : Bool
  is_ready : Bool
deriving DecidableEq, Repr

/-- `FfmpegPlayer::new`: all three flags start false. -/
def newFlags : Flags := { is_playing := false, should_stop := false, is_ready := false }

/-- `FfmpegPlayer::play`: store true into `is_playing`. -/
def play (s : Flags) : Flags := { s with is_playing := true }

/-- `FfmpegPlayer::pause`: store false into `is_playing`. -/
def pause (s : Flags) : Flags := { s with is_playing := false }

/-- `FfmpegPlayer::destroy`: store true into `should_stop` and false into
`is_playing`. -/
def destroy (s : Flags) : Flags := { s with should_stop := true, is_playing := false }

/-- A command issued on an existing player handle. -/
inductive Cmd
  | play
  | pause
  | destroy
deriving DecidableEq, Repr

/-- Dispatch of a command on the shared flags. -/
def applyCmd (s : Flags) : Cmd → Flags
  | .play => play s
  | .pause => pause s
  | .destroy => destroy s

/-! ## Bounded video queue (src/video.rs, decode_loop lines 432-445) -/

/-- Capacity of the bounded video frame queue, from the literal bound in
`decode_loop`: `if frames.len() < 100 { frames.push_back(..) }`. -/
def QUEUE_CAP : Nat := 100

/-- History-carrying state of the video queue: the live `VecDeque`, plus the
sequences of all frames ever enqueued and ever dequeued, in order. -/
structure QSys where
  queue : List VideoInfo
  pushed : List VideoInfo
  popped : List VideoInfo
deriving DecidableEq, Repr

/-- One interleaving event on the queue: a producer push attempt (taken only
when the queue is below capacity, as in the retry loop) or a consumer
`pop_front`. -/
inductive QOp
  | push (f : VideoInfo)
  | pop
deriving DecidableEq, Repr

/-- Apply one queue event. A push when full leaves the state unchanged
(the producer keeps the frame and retries); a pop on an empty queue is a
no-op (`pop_front` returns `None`). -/
def applyQOp (s : QSys) : QOp → QSys
  | .push f =>
      if s.queue.length < QUEUE_CAP then
        { queue := s.queue ++ [f], pushed := s.pushed ++ [f], popped := s.popped }
      else s
  | .pop =>
      match s.queue with
      | [] => s
      | f :: rest => { queue := rest, pushed := s.pushed, popped := s.popped ++ [f] }

/-- Fold a sequence of interleaved queue events. -/
def runQ (s : QSys) (ops : List QOp) : QSys := ops.foldl applyQOp s

/-- The empty initial queue of `FfmpegPlayer::new`. -/
def initQ : QSys := { queue := [], pushed := [], popped := [] }

/-- A concrete one-pixel frame used to instantiate witnesses. -/
def testFrame : VideoInfo :=
  { width := 1, height := 1, data := [0], pts := 0, position_secs := 0 }

/-- The producer-side enqueue retry loop of `decode_loop` lines 432-445:
each iteration observes the queue contents under the lock and, after an
unsuccessful attempt, the stop flag; the frame is pushed to the back as
soon as the queue is below capacity, the loop gives the frame up only when
`should_stop` is observed true, and otherwise sleeps and retries with the
next observation. -/
def enqueueRetry (f : VideoInfo) : List (List VideoInfo × Bool) → Option (List VideoInfo)
  | [] => none
  | (q, stop) :: rest =>
      if q.length < QUEUE_CAP then some (q ++ [f])
      else if stop then none
      else enqueueRetry f rest

/-! ## Audio ring buffer and end-of-stream flush (src/video.rs lines 499-537) -/

/-- The lock-free audio ring buffer: fixed capacity, current content in
sample order. Sample values (f32) are modelled as rationals. -/
structure RingBuf where
  cap : Nat
  content : List ℚ
deriving DecidableEq, Repr

/-- `push_slice` of the ring buffer producer: append as many samples from
the slice as fit in the free space and return how many were pushed. -/
def push_slice (rb : RingBuf) (xs : List ℚ) : RingBuf × Nat :=
  let n := min xs.length (rb.cap - rb.content.length)
  ({ cap := rb.cap, content := rb.content ++ xs.take n }, n)

/-- The resampler flush loop at end of stream, `decode_loop` lines 525-537:
each chunk flushed out of the resampler's internal delay is pushed exactly
once with `push_slice`, and the returned count is discarded
(`let _ = producer.push_slice(..)`) — there is no retry on a full buffer. -/
def flushEos (rb : RingBuf) (chunks : List (List ℚ)) : RingBuf :=
  chunks.foldl (fun b c => (push_slice b c).1) rb

/-! ## Decode loop prebuffer gate (src/video.rs, decode_loop lines 296-374) -/

/-- The fixed video prebuffer target: `const PREBUFFER_FRAMES: usize = 30`. -/
def PREBUFFER_FRAMES : Nat := 30

/-- Static configuration of one decode loop run: the audio output's target
sample rate and channel count, and whether an audio producer exists (an
audio stream was detected and an output device opened). When either is
missing, lines 296-315 fall back to `(None, None, 44100, 2)`. -/
structure DecodeCfg where
  targetSampleRate : Nat
  targetChannels : Nat
  hasAudioProducer : Bool
deriving DecidableEq, Repr

/-- The audio prebuffer threshold of line 332:
`(target_sample_rate as usize) * (target_channels as usize) / 2`, half a
second of interleaved audio at the target format. -/
def prebuffer_audio_samples (c : DecodeCfg) : Nat :=
  c.targetSampleRate * c.targetChannels / 2

/-- The configuration reached when the source has no audio stream, or when
no output device is available: no producer, fallback targets 44100 Hz and
2 channels. -/
def noAudioCfg : DecodeCfg :=
  { targetSampleRate := 44100, targetChannels := 2, hasAudioProducer := false }

/-- Mutable state read and written by the prebuffer gate across packet
iterations: the `prebuffering` local, the shared `is_ready` flag, the
current video queue length and the cumulative `audio_samples_pushed`
counter. -/
structure DecodeState where
  prebuffering : Bool
  is_ready : Bool
  frameQueueLen : Nat
  audioSamplesPushed : Nat
deriving DecidableEq, Repr

/-- The state at the top of the packet loop (lines 328-333):
`prebuffering = true`, `is_ready = false`, empty queue, nothing pushed. -/
def initDecode : DecodeState :=
  { prebuffering := true, is_ready := false, frameQueueLen := 0, audioSamplesPushed := 0 }

/-- The prebuffer check at the top of each packet iteration (lines
344-359): while `prebuffering`, if the video queue holds at least
`PREBUFFER_FRAMES` frames and at least `prebuffer_audio_samples` have been
pushed, store `is_ready := true` and clear `prebuffering`. -/
def prebufferCheck (c : DecodeCfg) (s : DecodeState) : DecodeState :=
  if s.prebuffering then
    if s.frameQueueLen ≥ PREBUFFER_FRAMES ∧
        s.audioSamplesPushed ≥ prebuffer_audio_samples c then
      { s with is_ready := true, prebuffering := false }
    else s
  else s

/-- Whether this iteration runs the wait-for-`is_playing` loop of lines
361-366 (`if !prebuffering { while !is_playing && !should_stop { sleep } }`),
evaluated right after the prebuffer check as in the code. -/
def honorsPlayFlag (c : DecodeCfg) (s : DecodeState) : Bool :=
  !(prebufferCheck c s).prebuffering

/-- The gate-relevant effect of one packet: a video packet adds its decoded
frames to the queue (lines 376-447); an audio packet adds its resampled
sample count to `audio_samples_pushed`, but only when an audio producer
exists — lines 449-521 run under `if let Some(ref mut producer) =
audio_producer`; any other packet changes nothing. -/
inductive PacketEffect
  | video (frames : Nat)
  | audio (samples : Nat)
  | other
deriving DecidableEq, Repr

/-- Input of one packet iteration: the packet's effect, and how many frames
the concurrent renderer popped from the queue meanwhile. -/
structure LoopInput where
  eff : PacketEffect
  poppedFrames : Nat
deriving DecidableEq, Repr

/-- Packet processing of one iteration (gate-relevant part). -/
def processPacket (c : DecodeCfg) (s : DecodeState) : PacketEffect → DecodeState
  | .video n => { s with frameQueueLen := s.frameQueueLen + n }
  | .audio n =>
      if c.hasAudioProducer then
        { s with audioSamplesPushed := s.audioSamplesPushed + n }
      else s
  | .other => s

/-- One full iteration of the packet loop: prebuffer check, then packet
processing, then the concurrent consumer's pops. -/
def decodeIter (c : DecodeCfg) (s : DecodeState) (inp : LoopInput) : DecodeState :=
  let s2 := processPacket c (prebufferCheck c s) inp.eff
  { s2 with frameQueueLen := s2.frameQueueLen - inp.poppedFrames }

/-- Fold the packet loop over a sequence of iterations. -/
def runDecode (c : DecodeCfg) (s : DecodeState) (inps : List LoopInput) : DecodeState :=
  inps.foldl (decodeIter c) s

/-! ## Render-side state machine (src/plugin.rs, render_video_frame lines 133-204) -/

/-- The bevy-side `VideoState` enum of src/plugin.rs lines 15-25. -/
inductive VideoState
  | Init
  | Playing
  | Paused
  | Start
  | Ready
  | Loading
  | Stop
deriving DecidableEq, Repr

/-- The render-side aggregate: the `VideoPlayer` state, its pipeline's
shared frame queue and `current_position`, the history of frames popped so
far (in order), the playback clock and the shared command flags. -/
structure PlayerSys where
  vstate : VideoState
  queue : List VideoInfo
  current_position : ℚ
  popped : List VideoInfo
  clock : ClockState
  flags : Flags
deriving DecidableEq, Repr

/-- One pass of `render_video_frame` over the player, given whether the
repeating timer just finished and whether the entity id has been assigned:
in `Playing`, when the timer fires and the queue is nonempty, pop the front
frame, write its `position_secs` into `current_position`, and (when the
frame's byte count matches `width*height*4`, the `RgbaImage::from_raw`
success condition) update the playback clock; in `Init` with an id, move to
`Ready`; in `Start`/`Loading`, move to `Playing` and call `play()` once
`is_ready` holds (a not-ready `Start` falls to `Loading`); in `Paused`,
call `pause()`; in `Stop`, call `destroy()`. Nothing else touches the
queue, the popped history or `current_position`. -/
def renderStep (s : PlayerSys) (timerFired : Bool) (idAssigned : Bool) : PlayerSys :=
  match s.vstate with
  | .Playing =>
      if timerFired then
        match s.queue with
        | [] => s
        | f :: rest =>
            { s with
              queue := rest
              current_position := f.position_secs
              popped := s.popped ++ [f]
              clock := if f.data.length = f.width * f.height * 4
                       then pts_timer_update s.clock f.pts
                       else s.clock }
      else s
  | .Init => if idAssigned then { s with vstate := .Ready } else s
  | .Start =>
      if s.flags.is_ready then { s with vstate := .Playing, flags := play s.flags }
      else { s with vstate := .Loading }
  | .Loading =>
      if s.flags.is_ready then { s with vstate := .Playing, flags := play s.flags }
      else s
  | .Paused => { s with flags := pause s.flags }
  | .Stop => { s with flags := destroy s.flags }
  | .Ready => s

/-- External happenings between two render passes: the app may set the
`VideoPlayer` state (the Play/Stop buttons in src/main.rs), the decode
thread may append newly decoded frames to the queue, the timer may have
fired, the entity id may be assigned. -/
structure RenderInput where
  setState : Option VideoState
  arrived : List VideoInfo
  timerFired : Bool
  idAssigned : Bool
deriving DecidableEq, Repr

/-- One tick: apply the externally requested state change and the frames
the decode thread enqueued, then run the render pass. -/
def renderTick (s : PlayerSys) (i : RenderInput) : PlayerSys :=
  let s0 := match i.setState with
            | some v => { s with vstate := v }
            | none => s
  renderStep { s0 with queue := s0.queue ++ i.arrived } i.timerFired i.idAssigned

/-- Fold a sequence of ticks. -/
def runRender (s : PlayerSys) (l : List RenderInput) : PlayerSys :=
  l.foldl renderTick s

/-- The freshly spawned player of src/main.rs lines 44-52: state `Init`,
1 ms repeating timer, zero `previous_pts`, position 0, empty queue, flags
all false. -/
def initPlayer : PlayerSys :=
  { vstate := .Init
    queue := []
    current_position := 0
    popped := []
    clock := { previous_pts := 0, timer_ms := 1 }
    flags := newFlags }

/-- Observer: the position of the most recently popped (rendered) frame,
or 0 when no frame has been popped yet. -/
def lastPoppedPos (s : PlayerSys) : ℚ :=
  ((s.popped.getLast?).map VideoInfo.position_secs).getD 0

end VideoModel

namespace VideoModel

theorem pixel_data_length (src : List Nat) (width stride : Nat) :
    ∀ h : Nat, (∀ y, y < h → y * stride + width * 4 ≤ src.length) →
      (pixel_data src width stride h).length = h * (width * 4) := by
  intro h
  induction h with
  | zero => intro _; simp [pixel_data]
  | succ n ih =>
    intro hrow
    have hn : (pixel_data src width stride n).length = n * (width * 4) :=
      ih (fun y hy => hrow y (Nat.lt_succ_of_lt hy))
    have hfit : n * stride + width * 4 ≤ src.length := hrow n (Nat.lt_succ_self n)
    have hlast : width * 4 ≤ src.length - n * stride := by omega
    simp only [pixel_data, List.length_append, hn, List.length_take, List.length_drop]
    rw [Nat.min_eq_left hlast]
    ring

theorem pixel_data_row (src : List Nat) (width stride : Nat) :
    ∀ h y : Nat, y < h → (∀ z, z < h → z * stride + width * 4 ≤ src.length) →
      ((pixel_data src width stride h).drop (y * (width * 4))).take (width * 4)
        = (src.drop (y * stride)).take (width * 4) := by
  intro h
  induction h with
  | zero => intro y hy _; exact absurd hy (Nat.not_lt_zero y)
  | succ n ih =>
    intro y hy hrow
    have hlenA : (pixel_data src width stride n).length = n * (width * 4) :=
      pixel_data_length src width stride n (fun z hz => hrow z (Nat.lt_succ_of_lt hz))
    rcases Nat.lt_succ_iff_lt_or_eq.mp hy with hlt | heq
    · have hle : y * (width * 4) ≤ (pixel_data src width stride n).length := by
        rw [hlenA]
        exact Nat.mul_le_mul_right _ (Nat.le_of_lt hlt)
      have hdrop :
          (pixel_data src width stride (n + 1)).drop (y * (width * 4))
            = (pixel_data src width stride n).drop (y * (width * 4))
                ++ (src.drop (n * stride)).take (width * 4) := by
        simp only [pixel_data]
        exact List.drop_append_of_le_length hle
      rw [hdrop]
      have hroom : width * 4 ≤ ((pixel_data src width stride n).drop (y * (width * 4))).length := by
        rw [List.length_drop, hlenA]
        have hstep : y * (width * 4) + width * 4 ≤ n * (width * 4) := by
          have := Nat.mul_le_mul_right (width * 4) hlt
          rw [Nat.succ_mul] at this
          exact this
        omega
      rw [List.take_append_of_le_length hroom]
      exact ih y hlt (fun z hz => hrow z (Nat.lt_succ_of_lt hz))
    · subst heq
      have hdrop :
          (pixel_data src width stride (y + 1)).drop (y * (width * 4))
            = (src.drop (y * stride)).take (width * 4) := by
        simp only [pixel_data]
        exact List.drop_left' hlenA
      rw [hdrop, List.take_take, Nat.min_self]

/-- C7: under the geometric side conditions the Rust slicing requires
(each source row fully inside the plane buffer: `y*stride + width*4 ≤
src.length` for every row), the pixel buffer built by the copy loop has
exactly `width*height*4` bytes, and its `y`-th chunk of `width*4` bytes is
exactly the first `width*4` bytes of the source row starting at offset
`y*stride` — tightly packed RGBA8 with the stride padding stripped. -/
theorem pixel_data_packed (src : List Nat) (width height stride : Nat)
    (hrow : ∀ y, y < height → y * stride + width * 4 ≤ src.length) :
    (pixel_data src width stride height).length = width * height * 4 ∧
    ∀ y, y < height →
      ((pixel_data src width stride height).drop (y * (width * 4))).take (width * 4)
        = (src.drop (y * stride)).take (width * 4) ∧
      ((src.drop (y * stride)).take (width * 4)).length = width * 4 := by
  constructor
  · rw [pixel_data_length src width stride height hrow]
    ring
  · intro y hy
    refine ⟨pixel_data_row src width stride height y hy hrow, ?_⟩
    have hfit : width * 4 ≤ src.length - y * stride := by
      have := hrow y hy
      omega
    simp [List.length_take, List.length_drop, Nat.min_eq_left hfit]

/-- Witness for `pixel_data_packed`: a 2x2 frame with stride 12 over a
24-byte plane; the packed buffer has 16 bytes and row 1 starts at source
offset 12. -/
theorem pixel_data_packed_witness :
    (pixel_data (List.range 24) 2 12 2).length = 2 * 2 * 4 ∧
    ((pixel_data (List.range 24) 2 12 2).drop (1 * (2 * 4))).take (2 * 4)
      = ((List.range 24).drop (1 * 12)).take (2 * 4) := by
  have h := pixel_data_packed (List.range 24) 2 2 12 (by decide)
  exact ⟨h.1, (h.2 1 (by decide)).1⟩

/-- C8: `destroy()` stores `should_stop := true` and `is_playing := false`;
it is idempotent (`destroy (destroy s) = destroy s`); a fresh player starts
with `should_stop = false`; and `should_stop` is monotonic — none of
`play`, `pause`, `destroy` ever changes it from true back to false. -/
theorem destroy_idempotent_stop_monotone (s : Flags) (c : Cmd) :
    (destroy s).should_stop = true ∧
    (destroy s).is_playing = false ∧
    destroy (destroy s) = destroy s ∧
    newFlags.should_stop = false ∧
    (s.should_stop = true → (applyCmd s c).should_stop = true) := by
  refine ⟨rfl, rfl, rfl, rfl, ?_⟩
  intro h
  cases c <;> simp [applyCmd, play, pause, destroy, h]

/-- Witness for `destroy_idempotent_stop_monotone`: after destroying a
fresh player, a subsequent `play` leaves `should_stop` true. -/
theorem destroy_idempotent_stop_monotone_witness :
    (applyCmd (destroy newFlags) Cmd.play).should_stop = true := by
  have h := destroy_idempotent_stop_monotone (destroy newFlags) Cmd.play
  exact h.2.2.2.2 (by decide)

/-- C3 counterexample: the claim says that on a non-first frame the timer
interval is always set to the clamped PTS delta. For a zero delta
(previous PTS 1000000 ns, new PTS 1000000 ns) the clamped delta would be
1 ms, but the code leaves the timer at its previous value (here 33 ms). -/
theorem pts_timer_zero_delta_counterexample :
    (pts_timer_update { previous_pts := 1000000, timer_ms := 33 } 1000000).timer_ms = 33 ∧
    clamp_dt ((1000000 - 1000000) / 1000000) = 1 ∧
    (33 : Nat) ≠ 1 := by
  refine ⟨rfl, rfl, by decide⟩

/-- C3 (amended): popping a non-first frame (previous PTS nonzero) always
updates `previous_pts` to the popped frame's PTS; the timer interval is set
to the PTS delta in whole milliseconds clamped to [1,100] when the delta is
positive, and is left unchanged for zero or negative (out-of-order) deltas;
consequently, whenever the current interval already lies in [1,100] ms (as
every value the code itself installs does, the 33 ms first-frame default
included), the resulting interval lies in [1,100] ms for deltas of 0 ms,
5000 ms and -10 ms alike. -/
theorem pts_timer_update_spec (s : ClockState) (p : Nat)
    (hfst : s.previous_pts ≠ 0) :
    (pts_timer_update s p).previous_pts = p ∧
    (s.previous_pts < p →
      (pts_timer_update s p).timer_ms = clamp_dt ((p - s.previous_pts) / 1000000)) ∧
    (p ≤ s.previous_pts → (pts_timer_update s p).timer_ms = s.timer_ms) ∧
    (1 ≤ s.timer_ms → s.timer_ms ≤ 100 →
      1 ≤ (pts_timer_update s p).timer_ms ∧ (pts_timer_update s p).timer_ms ≤ 100) := by
  unfold pts_timer_update
  rw [if_neg hfst]
  by_cases hlt : s.previous_pts < p
  · rw [if_pos hlt]
    refine ⟨rfl, fun _ => rfl, fun hle => absurd hlt (not_lt.mpr hle), fun _ _ => ?_⟩
    unfold clamp_dt
    constructor
    · exact le_min (le_max_right _ _) (by decide)
    · exact min_le_right _ _
  · rw [if_neg hlt]
    exact ⟨rfl, fun h => absurd h hlt, fun _ => rfl, fun h1 h2 => ⟨h1, h2⟩⟩

/-- Witness for `pts_timer_update_spec` at a concrete non-first frame with a
5000 ms delta: the timer is set to the clamp of 5000, namely 100 ms. -/
theorem pts_timer_update_spec_witness :
    ({ previous_pts := 1000000, timer_ms := 33 } : ClockState).previous_pts ≠ 0 ∧
    (pts_timer_update { previous_pts := 1000000, timer_ms := 33 } 5001000000).timer_ms = 100 := by
  refine ⟨by decide, ?_⟩
  have h := pts_timer_update_spec { previous_pts := 1000000, timer_ms := 33 } 5001000000 (by decide)
  have h2 := h.2.1 (by decide)
  rw [h2]
  decide

/-- C4 counterexample: the claim says `progress()` always lies in [0,1] for
every reachable player state. The code does not clamp: with the pipeline
present, `current_position = 2` seconds (set from a popped frame's
PTS-derived position) and container `duration = 1` second, `progress()`
returns 2. -/
theorem progress_exceeds_one_counterexample :
    progressQ { pipelineExists := true, current_position := 2, duration := 1 } = 2 ∧
    ¬ ((2 : ℚ) ≤ 1) := by
  constructor
  · unfold progressQ durationQ positionQ
    norm_num
  · norm_num

/-- C4 (amended): `progress()` equals `position / duration` when the known
duration is positive and 0 otherwise — in particular it returns 0 (with no
division performed) whenever the duration is 0 or unknown, and before the
pipeline exists both `position()` and `progress()` are 0; the result lies in
[0,1] exactly under the additional premise `0 ≤ position ≤ duration`, which
the code does not enforce. -/
theorem progress_spec (s : QueryState) :
    (durationQ s ≤ 0 → progressQ s = 0) ∧
    (s.pipelineExists = false → positionQ s = 0 ∧ progressQ s = 0) ∧
    (0 < durationQ s → progressQ s = positionQ s / durationQ s) ∧
    (0 ≤ positionQ s → positionQ s ≤ durationQ s →
      0 ≤ progressQ s ∧ progressQ s ≤ 1) := by
  refine ⟨?_, ?_, ?_, ?_⟩
  · intro h
    unfold progressQ
    rw [if_neg (not_lt.mpr h)]
  · intro h
    unfold progressQ durationQ positionQ
    rw [h]
    simp
  · intro h
    unfold progressQ
    rw [if_pos h]
  · intro h0 hle
    by_cases hd : 0 < durationQ s
    · unfold progressQ
      rw [if_pos hd]
      constructor
      · exact div_nonneg h0 (le_of_lt hd)
      · exact (div_le_one hd).mpr hle
    · unfold progressQ
      rw [if_neg hd]
      norm_num

/-- Witness for `progress_spec` at a concrete state: duration 10 s, current
position 5 s, yielding progress 1/2 within [0,1], and 0 for the
pipeline-absent state. -/
theorem progress_spec_witness :
    0 ≤ progressQ { pipelineExists := true, current_position := 5, duration := 10 } ∧
    progressQ { pipelineExists := true, current_position := 5, duration := 10 } ≤ 1 := by
  have h := progress_spec { pipelineExists := true, current_position := 5, duration := 10 }
  exact h.2.2.2 (by norm_num [positionQ]) (by norm_num [positionQ, durationQ])

theorem applyQOp_cap (s : QSys) (o : QOp) (h : s.queue.length ≤ QUEUE_CAP) :
    (applyQOp s o).queue.length ≤ QUEUE_CAP := by
  cases o with
  | push f =>
    by_cases hfull : s.queue.length < QUEUE_CAP
    · simp only [applyQOp, if_pos hfull, List.length_append, List.length_cons,
        List.length_nil]
      omega
    · simpa only [applyQOp, if_neg hfull] using h
  | pop =>
    cases hq : s.queue with
    | nil => simp [applyQOp, hq]
    | cons f rest =>
      simp only [applyQOp, hq]
      simp only [hq, List.length_cons] at h
      omega

theorem applyQOp_fifo (s : QSys) (o : QOp) (h : s.popped ++ s.queue = s.pushed) :
    (applyQOp s o).popped ++ (applyQOp s o).queue = (applyQOp s o).pushed := by
  cases o with
  | push f =>
    by_cases hfull : s.queue.length < QUEUE_CAP
    · simp only [applyQOp, if_pos hfull, ← List.append_assoc, h]
    · simpa only [applyQOp, if_neg hfull] using h
  | pop =>
    cases hq : s.queue with
    | nil => simpa [applyQOp, hq] using h
    | cons f rest =>
      simp only [applyQOp, hq]
      rw [← h, hq]
      simp

theorem runQ_inv (ops : List QOp) :
    ∀ s : QSys, s.queue.length ≤ QUEUE_CAP → s.popped ++ s.queue = s.pushed →
      (runQ s ops).queue.length ≤ QUEUE_CAP ∧
      (runQ s ops).popped ++ (runQ s ops).queue = (runQ s ops).pushed := by
  induction ops with
  | nil => intro s h1 h2; exact ⟨h1, h2⟩
  | cons o rest ih =>
    intro s h1 h2
    exact ih (applyQOp s o) (applyQOp_cap s o h1) (applyQOp_fifo s o h2)

theorem enqueueRetry_succeeds (f : VideoInfo) :
    ∀ obs : List (List VideoInfo × Bool),
      (∀ o ∈ obs, o.2 = false) →
      (∃ o ∈ obs, o.1.length < QUEUE_CAP) →
      ∃ q, enqueueRetry f obs = some (q ++ [f]) := by
  intro obs
  induction obs with
  | nil =>
    intro _ hex
    rcases hex with ⟨o, ho, _⟩
    exact absurd ho (List.not_mem_nil o)
  | cons p rest ih =>
    intro hstop hex
    rcases p with ⟨q, stop⟩
    by_cases hsp : q.length < QUEUE_CAP
    · exact ⟨q, by simp [enqueueRetry, hsp]⟩
    · have hs : stop = false := hstop (q, stop) (List.mem_cons_self _ _)
      have hex' : ∃ o ∈ rest, o.1.length < QUEUE_CAP := by
        rcases hex with ⟨o, ho, hol⟩
        rcases List.mem_cons.mp ho with heq | hmem
        · rw [heq] at hol
          exact absurd hol hsp
        · exact ⟨o, hmem, hol⟩
      have hstop' : ∀ o ∈ rest, o.2 = false :=
        fun o ho => hstop o (List.mem_cons_of_mem _ ho)
      rcases ih hstop' hex' with ⟨q', hq'⟩
      exact ⟨q', by simp [enqueueRetry, hsp, hs, hq']⟩

/-- C5: starting from any state whose queue respects the capacity bound and
whose pop history is a prefix of its push history (which the initial empty
state does), every interleaving of producer pushes and consumer pops keeps
the Video Queue at or below its capacity of 100 frames and preserves
`popped ++ queue = pushed` — frames leave in exactly the order they
entered, with no reordering; moreover, the producer retry loop, run against
any sequence of observations in which `should_stop` stays false and the
queue is seen below capacity at least once, pushes the frame to the back of
the first such observation instead of dropping it. -/
theorem video_queue_bounded_fifo (s : QSys) (ops : List QOp)
    (f : VideoInfo) (obs : List (List VideoInfo × Bool))
    (hcap : s.queue.length ≤ QUEUE_CAP)
    (hfifo : s.popped ++ s.queue = s.pushed)
    (hstop : ∀ o ∈ obs, o.2 = false)
    (hspace : ∃ o ∈ obs, o.1.length < QUEUE_CAP) :
    (runQ s ops).queue.length ≤ QUEUE_CAP ∧
    (runQ s ops).popped ++ (runQ s ops).queue = (runQ s ops).pushed ∧
    ∃ q, enqueueRetry f obs = some (q ++ [f]) := by
  rcases runQ_inv ops s hcap hfifo with ⟨h1, h2⟩
  exact ⟨h1, h2, enqueueRetry_succeeds f obs hstop hspace⟩

/-- Witness for `video_queue_bounded_fifo`: a push and a pop from the
empty queue, with a retry that first sees a full queue (with the stop flag
false) and then an empty one. -/
theorem video_queue_bounded_fifo_witness :
    (runQ initQ [QOp.push testFrame, QOp.pop]).queue.length ≤ QUEUE_CAP ∧
    ∃ q, enqueueRetry testFrame [(List.replicate 100 testFrame, false), ([], false)]
      = some (q ++ [testFrame]) := by
  have h := video_queue_bounded_fifo initQ [QOp.push testFrame, QOp.pop]
      testFrame [(List.replicate 100 testFrame, false), ([], false)]
      (by simp [initQ]) (by simp [initQ])
      (by
        intro o ho
        rcases List.mem_cons.mp ho with h1 | h1
        · subst h1; rfl
        · have h2 := List.mem_singleton.mp h1
          subst h2; rfl)
      ⟨([], false), by simp, by norm_num [QUEUE_CAP]⟩
  exact ⟨h.1, h.2.2⟩

theorem push_slice_cap (rb : RingBuf) (xs : List ℚ)
    (h : rb.content.length ≤ rb.cap) :
    (push_slice rb xs).1.content.length ≤ rb.cap ∧ (push_slice rb xs).1.cap = rb.cap := by
  constructor
  · simp only [push_slice, List.length_append, List.length_take]
    omega
  · rfl

theorem flushEos_cap (chunks : List (List ℚ)) :
    ∀ rb : RingBuf, rb.content.length ≤ rb.cap →
      (flushEos rb chunks).content.length ≤ rb.cap ∧ (flushEos rb chunks).cap = rb.cap := by
  induction chunks with
  | nil => intro rb h; exact ⟨h, rfl⟩
  | cons c rest ih =>
    intro rb h
    have hstep := push_slice_cap rb c h
    have := ih (push_slice rb c).1 (hstep.2 ▸ hstep.1)
    exact ⟨hstep.2 ▸ this.1, (this.2.trans hstep.2 : _)⟩

theorem flushEos_all_pushed (chunks : List (List ℚ)) :
    ∀ rb : RingBuf,
      rb.content.length + (chunks.map List.length).sum ≤ rb.cap →
      (flushEos rb chunks).content = rb.content ++ chunks.flatten := by
  induction chunks with
  | nil => intro rb _; simp [flushEos]
  | cons c rest ih =>
    intro rb hroom
    simp only [List.map_cons, List.sum_cons] at hroom
    have hfit : min c.length (rb.cap - rb.content.length) = c.length := by omega
    have hstep : (push_slice rb c).1 =
        { cap := rb.cap, content := rb.content ++ c } := by
      simp only [push_slice, hfit, List.take_length]
    have hrest : ((push_slice rb c).1).content.length + (rest.map List.length).sum
        ≤ ((push_slice rb c).1).cap := by
      rw [hstep]
      simp only [List.length_append]
      omega
    calc (flushEos rb (c :: rest)).content
        = (flushEos (push_slice rb c).1 rest).content := rfl
      _ = ((push_slice rb c).1).content ++ rest.flatten := ih _ hrest
      _ = rb.content ++ (c :: rest).flatten := by rw [hstep]; simp

/-- C6 counterexample: the claim says every sample retained in the
resampler's delay is pushed into the audio buffer at end of stream for
every buffer state. With the ring buffer full (capacity 2, two samples
occupied) a flushed chunk holding the sample 1 is dropped: the buffer is
unchanged and the sample never enters it. -/
theorem flush_eos_drop_counterexample :
    (flushEos { cap := 2, content := [0, 0] } [[1]]).content = [0, 0] ∧
    ¬ ((1 : ℚ) ∈ (flushEos { cap := 2, content := [0, 0] } [[1]]).content) := by
  constructor
  · simp [flushEos, push_slice]
  · simp [flushEos, push_slice]

/-- C6 (amended): at end of stream every chunk flushed out of the
resampler's delay is offered once to the Audio Sample Buffer via
`push_slice`, which appends in order as many of its samples as fit the free
space; the capacity bound is preserved, and whenever the buffer has room
for all retained samples they are all pushed — in order, before the decode
loop completes — but any samples beyond the free space at flush time are
dropped, with no retry. -/
theorem flush_eos_spec (rb : RingBuf) (chunks : List (List ℚ))
    (hcap : rb.content.length ≤ rb.cap) :
    (flushEos rb chunks).content.length ≤ rb.cap ∧
    (flushEos rb chunks).cap = rb.cap ∧
    (rb.content.length + (chunks.map List.length).sum ≤ rb.cap →
      (flushEos rb chunks).content = rb.content ++ chunks.flatten) := by
  rcases flushEos_cap chunks rb hcap with ⟨h1, h2⟩
  exact ⟨h1, h2, flushEos_all_pushed chunks rb⟩

/-- Witness for `flush_eos_spec`: a buffer of capacity 4 holding two
samples receives two flushed chunks of one sample each; all samples fit and
are appended in order. -/
theorem flush_eos_spec_witness :
    (flushEos { cap := 4, content := [0, 0] } [[1], [2]]).content = [0, 0] ++ [[(1 : ℚ)], [2]].flatten := by
  have h := flush_eos_spec { cap := 4, content := [0, 0] } [[1], [2]] (by norm_num)
  exact h.2.2 (by norm_num)

theorem decodeIter_ready (c : DecodeCfg) (s : DecodeState) (i : LoopInput) :
    (decodeIter c s i).is_ready = (prebufferCheck c s).is_ready := by
  cases heff : i.eff with
  | video n => simp [decodeIter, processPacket, heff]
  | audio n =>
    by_cases hp : c.hasAudioProducer <;> simp [decodeIter, processPacket, heff, hp]
  | other => simp [decodeIter, processPacket, heff]

theorem decodeIter_prebuffering (c : DecodeCfg) (s : DecodeState) (i : LoopInput) :
    (decodeIter c s i).prebuffering = (prebufferCheck c s).prebuffering := by
  cases heff : i.eff with
  | video n => simp [decodeIter, processPacket, heff]
  | audio n =>
    by_cases hp : c.hasAudioProducer <;> simp [decodeIter, processPacket, heff, hp]
  | other => simp [decodeIter, processPacket, heff]

theorem prebufferCheck_ready_mono (c : DecodeCfg) (s : DecodeState)
    (h : s.is_ready = true) : (prebufferCheck c s).is_ready = true := by
  unfold prebufferCheck
  split
  · split
    · rfl
    · exact h
  · exact h

theorem prebufferCheck_inv (c : DecodeCfg) (s : DecodeState)
    (h : s.is_ready = !s.prebuffering) :
    (prebufferCheck c s).is_ready = !(prebufferCheck c s).prebuffering := by
  unfold prebufferCheck
  split
  · split
    · rfl
    · exact h
  · exact h

theorem prebufferCheck_flip (c : DecodeCfg) (s : DecodeState)
    (h0 : s.is_ready = false) (h1 : (prebufferCheck c s).is_ready = true) :
    s.frameQueueLen ≥ PREBUFFER_FRAMES ∧
    s.audioSamplesPushed ≥ prebuffer_audio_samples c := by
  unfold prebufferCheck at h1
  by_cases hp : s.prebuffering = true
  · rw [if_pos hp] at h1
    by_cases hc : s.frameQueueLen ≥ PREBUFFER_FRAMES ∧
        s.audioSamplesPushed ≥ prebuffer_audio_samples c
    · exact hc
    · rw [if_neg hc, h0] at h1
      exact absurd h1 (by decide)
  · rw [if_neg hp, h0] at h1
    exact absurd h1 (by decide)

theorem runDecode_ready_mono (c : DecodeCfg) (inps : List LoopInput) :
    ∀ s : DecodeState, s.is_ready = true → (runDecode c s inps).is_ready = true := by
  induction inps with
  | nil => intro s h; exact h
  | cons i rest ih =>
    intro s h
    exact ih (decodeIter c s i)
      (by rw [decodeIter_ready]; exact prebufferCheck_ready_mono c s h)

/-- C1: along any run of the decode loop started in a state satisfying the
gate invariant `is_ready = not prebuffering` (which the loop's initial
state, with `is_ready` false and `prebuffering` true, satisfies): (a) once
true, `is_ready` stays true for the rest of the run, so starting from false
it transitions false-to-true at most once; (b) an iteration that flips
`is_ready` to true does so only when, at the moment of the check, the Video
Queue holds at least `PREBUFFER_FRAMES = 30` frames and at least
`prebuffer_audio_samples` (half a second of interleaved audio at the target
rate) have been pushed into the Audio Sample Buffer; (c) the invariant is
preserved by every iteration; and (d) an iteration waits on the
play/pause flag exactly when `is_ready` holds after the check — before
that, packets are consumed without waiting on `is_playing`. -/
theorem decode_ready_once_and_gated (c : DecodeCfg) (s : DecodeState)
    (inp : LoopInput) (inps : List LoopInput)
    (hinv : s.is_ready = !s.prebuffering) :
    (s.is_ready = true → (runDecode c s inps).is_ready = true) ∧
    (s.is_ready = false → (decodeIter c s inp).is_ready = true →
      s.frameQueueLen ≥ PREBUFFER_FRAMES ∧
      s.audioSamplesPushed ≥ prebuffer_audio_samples c) ∧
    ((decodeIter c s inp).is_ready = !(decodeIter c s inp).prebuffering) ∧
    (honorsPlayFlag c s = (prebufferCheck c s).is_ready) ∧
    initDecode.is_ready = false ∧ initDecode.prebuffering = true := by
  refine ⟨fun h => runDecode_ready_mono c inps s h, ?_, ?_, ?_, rfl, rfl⟩
  · intro h0 h1
    rw [decodeIter_ready] at h1
    exact prebufferCheck_flip c s h0 h1
  · rw [decodeIter_ready, decodeIter_prebuffering]
    exact prebufferCheck_inv c s hinv
  · unfold honorsPlayFlag
    rw [prebufferCheck_inv c s hinv]

/-- Witness for `decode_ready_once_and_gated`: with an audio producer at
44100 Hz stereo, a state holding 30 queued frames and 44100 pushed samples
flips `is_ready` in one iteration, and the theorem recovers that both
thresholds held at the flip. -/
theorem decode_ready_once_and_gated_witness :
    ({ prebuffering := true, is_ready := false, frameQueueLen := 30,
       audioSamplesPushed := 44100 } : DecodeState).frameQueueLen ≥ PREBUFFER_FRAMES ∧
    ({ prebuffering := true, is_ready := false, frameQueueLen := 30,
       audioSamplesPushed := 44100 } : DecodeState).audioSamplesPushed
      ≥ prebuffer_audio_samples
          { targetSampleRate := 44100, targetChannels := 2, hasAudioProducer := true } := by
  have h := decode_ready_once_and_gated
      { targetSampleRate := 44100, targetChannels := 2, hasAudioProducer := true }
      { prebuffering := true, is_ready := false, frameQueueLen := 30,
        audioSamplesPushed := 44100 }
      { eff := PacketEffect.other, poppedFrames := 0 } [] (by decide)
  exact h.2.1 (by decide) (by decide)

theorem decodeIter_noaudio (s : DecodeState) (i : LoopInput)
    (h1 : s.is_ready = false) (h2 : s.prebuffering = true)
    (h3 : s.audioSamplesPushed = 0) :
    (decodeIter noAudioCfg s i).is_ready = false ∧
    (decodeIter noAudioCfg s i).prebuffering = true ∧
    (decodeIter noAudioCfg s i).audioSamplesPushed = 0 := by
  have hpc : prebufferCheck noAudioCfg s = s := by
    unfold prebufferCheck
    rw [if_pos h2]
    have hcond : ¬(s.frameQueueLen ≥ PREBUFFER_FRAMES ∧
        s.audioSamplesPushed ≥ prebuffer_audio_samples noAudioCfg) := by
      intro hc
      have := hc.2
      rw [h3] at this
      norm_num [prebuffer_audio_samples, noAudioCfg] at this
    rw [if_neg hcond]
  cases heff : i.eff with
  | video n =>
    refine ⟨?_, ?_, ?_⟩ <;> simp [decodeIter, processPacket, heff, hpc, h1, h2, h3]
  | audio n =>
    have hprod : noAudioCfg.hasAudioProducer = false := rfl
    refine ⟨?_, ?_, ?_⟩ <;>
      simp [decodeIter, processPacket, heff, hpc, hprod, h1, h2, h3]
  | other =>
    refine ⟨?_, ?_, ?_⟩ <;> simp [decodeIter, processPacket, heff, hpc, h1, h2, h3]

theorem runDecode_noaudio (inps : List LoopInput) :
    ∀ s : DecodeState, s.is_ready = false → s.prebuffering = true →
      s.audioSamplesPushed = 0 →
      (runDecode noAudioCfg s inps).is_ready = false ∧
      (runDecode noAudioCfg s inps).audioSamplesPushed = 0 := by
  induction inps with
  | nil => intro s h1 _ h3; exact ⟨h1, h3⟩
  | cons i rest ih =>
    intro s h1 h2 h3
    have hstep := decodeIter_noaudio s i h1 h2 h3
    exact ih (decodeIter noAudioCfg s i) hstep.1 hstep.2.1 hstep.2.2

/-- C2 (the code contradicts the claim): when the source has no audio
stream, or no output device is available, the decode loop runs with no
audio producer but with the fallback targets 44100 Hz and 2 channels, so
the audio threshold is `44100 * 2 / 2 = 44100` samples while
`audio_samples_pushed` stays 0 forever (samples are pushed only under
`if let Some(producer)`); consequently `is_ready` remains false along every
run of the loop — even after 30 or more video frames are queued — instead
of being set once the Video Queue holds 30 frames as the spec requires. -/
theorem decode_video_only_never_ready (inps : List LoopInput) :
    (runDecode noAudioCfg initDecode inps).is_ready = false ∧
    (runDecode noAudioCfg initDecode inps).audioSamplesPushed = 0 ∧
    prebuffer_audio_samples noAudioCfg = 44100 := by
  have h := runDecode_noaudio inps initDecode rfl rfl rfl
  exact ⟨h.1, h.2, rfl⟩

/-- C9: putting the render step into `Paused` (which calls `pause()`,
storing `is_playing := false`) leaves the frame queue, the popped-frame
history and `current_position` untouched — already-buffered frames are not
discarded and nothing is delivered to the consumer path — and a subsequent
`Playing` step with the timer fired pops exactly the frame that was at the
front when pausing, continuing in FIFO order rather than from a reset
position. -/
theorem pause_preserves_queue_resume_in_order (s : PlayerSys)
    (f : VideoInfo) (rest : List VideoInfo) (tf ia : Bool)
    (hq : s.queue = f :: rest) :
    (renderStep { s with vstate := VideoState.Paused } tf ia).queue = s.queue ∧
    (renderStep { s with vstate := VideoState.Paused } tf ia).popped = s.popped ∧
    (renderStep { s with vstate := VideoState.Paused } tf ia).current_position
      = s.current_position ∧
    (renderStep { s with vstate := VideoState.Paused } tf ia).flags.is_playing = false ∧
    (renderStep { (renderStep { s with vstate := VideoState.Paused } tf ia) with
        vstate := VideoState.Playing } true ia).queue = rest ∧
    (renderStep { (renderStep { s with vstate := VideoState.Paused } tf ia) with
        vstate := VideoState.Playing } true ia).popped = s.popped ++ [f] := by
  refine ⟨rfl, rfl, rfl, rfl, ?_, ?_⟩ <;>
    simp [renderStep, pause, hq]

/-- Witness for `pause_preserves_queue_resume_in_order`: pausing over a
one-frame queue keeps the frame; resuming pops it. -/
theorem pause_preserves_queue_resume_in_order_witness :
    (renderStep { { initPlayer with queue := [testFrame] } with
        vstate := VideoState.Paused } false false).queue = [testFrame] ∧
    (renderStep { (renderStep { { initPlayer with queue := [testFrame] } with
        vstate := VideoState.Paused } false false) with
        vstate := VideoState.Playing } true false).popped = [] ++ [testFrame] := by
  have h := pause_preserves_queue_resume_in_order
      { initPlayer with queue := [testFrame] } testFrame [] false false rfl
  exact ⟨h.1, h.2.2.2.2.2⟩

theorem renderStep_pos (s : PlayerSys) (tf ia : Bool)
    (h : s.current_position = lastPoppedPos s) :
    (renderStep s tf ia).current_position = lastPoppedPos (renderStep s tf ia) := by
  cases hv : s.vstate with
  | Playing =>
    cases tf with
    | false => simpa [renderStep, hv] using h
    | true =>
      cases hq : s.queue with
      | nil => simpa [renderStep, hv, hq] using h
      | cons f rest => simp [renderStep, hv, hq, lastPoppedPos]
  | Init =>
    cases ia <;> simpa [renderStep, hv] using h
  | Start =>
    by_cases hr : s.flags.is_ready = true <;> simpa [renderStep, hv, hr] using h
  | Loading =>
    by_cases hr : s.flags.is_ready = true <;> simpa [renderStep, hv, hr] using h
  | Paused => simpa [renderStep, hv] using h
  | Stop => simpa [renderStep, hv] using h
  | Ready => simpa [renderStep, hv] using h

theorem renderTick_pos (s : PlayerSys) (i : RenderInput)
    (h : s.current_position = lastPoppedPos s) :
    (renderTick s i).current_position = lastPoppedPos (renderTick s i) := by
  simp only [renderTick]
  cases hset : i.setState with
  | none =>
    apply renderStep_pos
    simpa [lastPoppedPos] using h
  | some v =>
    apply renderStep_pos
    simpa [lastPoppedPos] using h

theorem runRender_pos (l : List RenderInput) :
    ∀ s : PlayerSys, s.current_position = lastPoppedPos s →
      (runRender s l).current_position = lastPoppedPos (runRender s l) := by
  induction l with
  | nil => intro s h; exact h
  | cons i rest ih => intro s h; exact ih _ (renderTick_pos s i h)

/-- C10: over every sequence of render ticks from the freshly spawned
player — ticks in which the app may change the `VideoPlayer` state, the
decode thread may append frames, and only the `Playing` branch of the
render step ever writes `current_position`, doing so on every successful
pop — the current position equals the `position_secs` of the most recently
popped frame, and 0 before any frame has been popped; and `position()`
returns 0 whenever the pipeline does not exist, whatever the stored
scalars. -/
theorem position_tracks_last_popped (l : List RenderInput) (p d : ℚ) :
    (runRender initPlayer l).current_position
      = (((runRender initPlayer l).popped.getLast?).map VideoInfo.position_secs).getD 0 ∧
    positionQ { pipelineExists := false, current_position := p, duration := d } = 0 := by
  constructor
  · have h := runRender_pos l initPlayer (by simp [lastPoppedPos, initPlayer])
    simpa [lastPoppedPos] using h
  · simp [positionQ]

end VideoModel
